import Mathlib

/-!
Shallow embedding of the memory allocator in `src/alloc.c`
(functions `split`, `find_prev`, `find_next`, `remove_free_block`,
`coalesce`, `do_alloc`, `tumalloc`, `tucalloc`, `turealloc`, `tufree`).

The heap is modelled as a finite association list from byte addresses
(header addresses) to block headers, together with the global free-list
head `HEAD`, the current program break `brk`, a break `limit` modelling
the point at which the OS refuses `sbrk`, and a byte memory `mem` for
payload contents.  Pointer arithmetic from the C source is carried out
on `Nat` addresses.  The linked-list scans of the C source are given a
fuel argument (the number of stored headers plus one), which bounds any
acyclic traversal.
-/

set_option autoImplicit false

namespace Alloc

/-- Modelled from the spec: the header file `alloc.h` is not in the
repository; per §3 of the spec a block header holds `size` (usable
payload bytes, excluding the header) and `next`, the ownership-free link
to the next free-list block (`none` = `NULL`). -/
structure BlockHdr where
  size : Nat
  next : Option Nat
  deriving DecidableEq, Repr

/-- Modelled from the spec: `alloc.h` is absent, so `sizeof(free_block)`
is taken from the spec's "header width" constant; on an LP64 target the
struct `{ size_t size; struct free_block *next; }` occupies 16 bytes. -/
def headerWidth : Nat := 16

/-- Value of `(size_t)-1` used by the overflow guard in `tucalloc`. -/
def SIZE_MAX : Nat := 2 ^ 64 - 1

/-- Heap state: stored block headers, free-list head, program break,
OS break limit, and payload byte memory. -/
structure Heap where
  blocks : List (Nat × BlockHdr)
  head : Option Nat
  brk : Nat
  limit : Nat
  mem : Nat → Nat

/-- First-match lookup in the header store. -/
def lookupB : List (Nat × BlockHdr) → Nat → Option BlockHdr
  | [], _ => none
  | (a, b) :: rest, x => if a = x then some b else lookupB rest x

/-- Write a header, replacing an existing entry or appending a fresh one. -/
def updateB : List (Nat × BlockHdr) → Nat → BlockHdr → List (Nat × BlockHdr)
  | [], a, b => [(a, b)]
  | (a0, b0) :: rest, a, b =>
    if a0 = a then (a, b) :: rest else (a0, b0) :: updateB rest a b

/-- Read the header stored at address `a` (reading unwritten memory
yields an arbitrary fixed header, standing for indeterminate bytes). -/
def Heap.get (h : Heap) (a : Nat) : BlockHdr :=
  (lookupB h.blocks a).getD ⟨0, none⟩

/-- Write the header at address `a`. -/
def Heap.set (h : Heap) (a : Nat) (b : BlockHdr) : Heap :=
  { h with blocks := updateB h.blocks a b }

/-- The free list as seen by traversing `next` from `o`; `none` when the
fuel is insufficient (cannot happen on the acyclic states considered). -/
def chainN (h : Heap) : Option Nat → Nat → Option (List Nat)
  | none, _ => some []
  | some _, 0 => none
  | some a, fuel + 1 => (chainN h (h.get a).next fuel).map (fun l => a :: l)

/-- Loop of `find_prev` in `alloc.c`: scan the free list for a block
whose end address (`curr + curr->size + sizeof(free_block)`) equals `ba`. -/
def findPrevGo (h : Heap) (ba : Nat) : Option Nat → Nat → Option Nat
  | none, _ => none
  | some _, 0 => none
  | some c, fuel + 1 =>
    if c + (h.get c).size + headerWidth = ba then some c
    else findPrevGo h ba (h.get c).next fuel

/-- `find_prev` from `alloc.c`: physical-predecessor query over the free list. -/
def find_prev (h : Heap) (ba : Nat) : Option Nat :=
  findPrevGo h ba h.head (h.blocks.length + 1)

/-- Loop of `find_next` in `alloc.c`: scan the free list for a block whose
address equals the given end address. -/
def findNextGo (h : Heap) (bEnd : Nat) : Option Nat → Nat → Option Nat
  | none, _ => none
  | some _, 0 => none
  | some c, fuel + 1 =>
    if c = bEnd then some c
    else findNextGo h bEnd (h.get c).next fuel

/-- `find_next` from `alloc.c`: physical-successor query over the free list. -/
def find_next (h : Heap) (ba : Nat) : Option Nat :=
  findNextGo h (ba + (h.get ba).size + headerWidth) h.head (h.blocks.length + 1)

/-- While-loop of `remove_free_block`: unlink `ba` at the first list node
whose `next` field points to it. -/
def removeLoop (h : Heap) (ba : Nat) : Nat → Nat → Heap
  | _, 0 => h
  | c, fuel + 1 =>
    if (h.get c).next = some ba then
      h.set c ⟨(h.get c).size, (h.get ba).next⟩
    else
      match (h.get c).next with
      | none => h
      | some c2 => removeLoop h ba c2 fuel

/-- `remove_free_block` from `alloc.c`. -/
def remove_free_block (h : Heap) (ba : Nat) : Heap :=
  match h.head with
  | none => h
  | some c =>
    if c = ba then { h with head := (h.get ba).next }
    else removeLoop h ba c (h.blocks.length + 1)

/-- Result of the C conversion of a `size_t` value to the 32-bit `int`
parameter of `split` (two's-complement wrap of the low 32 bits, the
behaviour of LP64 compilers). -/
def toInt32 (n : Nat) : Int :=
  if n % 2 ^ 32 < 2 ^ 31 then ((n % 2 ^ 32 : Nat) : Int)
  else ((n % 2 ^ 32 : Nat) : Int) - 2 ^ 32

/-- Reading of an `int` value in `size_t` (unsigned, modulo `2^64`)
arithmetic, as happens inside `split` where `size` meets
`sizeof(free_block)` and the block's `size_t` fields. -/
def intAsSizeT (v : Int) : Nat := (v % (2 ^ 64 : Int)).toNat

/-- `split` from `alloc.c`: carve `size` payload bytes off the front of the
block at `ba`; the remainder becomes a fresh header at `ba + size + header`,
inheriting the donor's `next`; the donor's size is truncated.  The C
signature is `void *split(free_block *block, int size)`, so the `size_t`
request is first converted to `int` (wrapping at `2^31`), and inside the
function that `int` re-enters `size_t`/pointer arithmetic, modulo `2^64`. -/
def split (h : Heap) (ba : Nat) (size : Nat) : Option Nat × Heap :=
  let sv := intAsSizeT (toInt32 size)
  let b := h.get ba
  if b.size < (sv + headerWidth) % 2 ^ 64 then (none, h)
  else
    let splitPnt := (ba + sv + headerWidth) % 2 ^ 64
    let h1 := h.set splitPnt
      ⟨(b.size + (2 ^ 64 - sv) + (2 ^ 64 - headerWidth)) % 2 ^ 64, b.next⟩
    let h2 := h1.set ba ⟨sv, (h1.get ba).next⟩
    (some ba, h2)

/-- `coalesce` from `alloc.c`: merge the block at `blk` with its physical
predecessor and/or successor on the free list, exactly as the C code does
(both neighbour queries are made before either merge). -/
def coalesce (h : Heap) (blk : Option Nat) : Option Nat × Heap :=
  match blk with
  | none => (none, h)
  | some b0 =>
    let prevR := find_prev h b0
    let nextR := find_next h b0
    let step1 : Nat × Heap :=
      match prevR with
      | none => (b0, h)
      | some p =>
        let pb := h.get p
        if p + pb.size + headerWidth = b0 then
          let hP := h.set p ⟨pb.size + (h.get b0).size + headerWidth, (h.get p).next⟩
          let hP2 :=
            if (hP.get p).next = some b0 then
              hP.set p ⟨(hP.get p).size, (hP.get b0).next⟩
            else hP
          (p, hP2)
        else (b0, h)
    let b1 := step1.1
    let hA := step1.2
    match nextR with
    | none => (some b1, hA)
    | some nx =>
      let bb := hA.get b1
      if b1 + bb.size + headerWidth = nx then
        let hB := hA.set b1 ⟨bb.size + (hA.get nx).size + headerWidth, (hA.get b1).next⟩
        let hB2 := hB.set b1 ⟨(hB.get b1).size, (hB.get nx).next⟩
        (some b1, hB2)
      else (some b1, hA)

/-- `do_alloc` from `alloc.c`: extend the break by `size + header` bytes;
on OS refusal return `none` and leave the heap untouched; otherwise
initialize a fresh header at the old break and return the payload pointer. -/
def do_alloc (h : Heap) (size : Nat) : Option Nat × Heap :=
  if size = 0 then (none, h)
  else
    let total := size + headerWidth
    if h.limit < h.brk + total then (none, h)
    else
      let a := h.brk
      let h1 := { h with brk := h.brk + total }
      let h2 := h1.set a ⟨size, none⟩
      (some (a + headerWidth), h2)

/-- Free-list scan of `tumalloc`: first fit; on a hit remove the block,
split it when it has a full header of surplus, push the leftover at the
list head (the `HEAD == NULL || HEAD->next == NULL` special case of the C
code included), and return the payload pointer; on a miss fall through to
`do_alloc`. -/
def tumallocLoop (h : Heap) (size : Nat) : Option Nat → Nat → Option Nat × Heap
  | none, _ => do_alloc h size
  | some _, 0 => do_alloc h size
  | some a, fuel + 1 =>
    let b := h.get a
    if size ≤ b.size then
      let h1 := remove_free_block h a
      let b1 := h1.get a
      if size + headerWidth ≤ b1.size then
        let h2 := (split h1 a size).2
        let lo := a + size + headerWidth
        let h3 : Heap :=
          match h1.head with
          | none => { h2.set lo ⟨(h2.get lo).size, none⟩ with head := some lo }
          | some a0 =>
            if (h2.get a0).next = none then
              { h2.set lo ⟨(h2.get lo).size, none⟩ with head := some lo }
            else
              { h2.set lo ⟨(h2.get lo).size, h1.head⟩ with head := some lo }
        (some (a + headerWidth), h3)
      else
        (some (a + headerWidth), h1)
    else
      tumallocLoop h size b.next fuel

/-- `tumalloc` from `alloc.c`. -/
def tumalloc (h : Heap) (size : Nat) : Option Nat × Heap :=
  if size = 0 then (none, h)
  else tumallocLoop h size h.head (h.blocks.length + 1)

/-- Effect of `memset(lo, 0, n)` on the byte memory. -/
def memsetZero (m : Nat → Nat) (lo n : Nat) : Nat → Nat :=
  fun a => if lo ≤ a ∧ a < lo + n then 0 else m a

/-- Effect of `memcpy(dst, src, n)` on the byte memory (regions disjoint). -/
def memcpyMem (m : Nat → Nat) (dst src n : Nat) : Nat → Nat :=
  fun a => if dst ≤ a ∧ a < dst + n then m (src + (a - dst)) else m a

/-- `tucalloc` from `alloc.c`: zero/overflow guards, then `tumalloc` on the
product; on success the C code runs `memset(block, 0, size)` — note that it
zeroes `size` bytes, not `num * size`. -/
def tucalloc (h : Heap) (num size : Nat) : Option Nat × Heap :=
  if num = 0 ∨ size = 0 then (none, h)
  else if SIZE_MAX / size < num then (none, h)
  else
    match tumalloc h (num * size) with
    | (none, h1) => (none, h1)
    | (some p, h1) => (some p, { h1 with mem := memsetZero h1.mem p size })

/-- `tufree` from `alloc.c`: a trailing block (end address equal to the
program break) is returned to the OS (the list head is cleared when
`HEAD == tmp`, otherwise the physical predecessor found on the list has
its `next` set to `NULL`); a non-trailing block becomes the sole list head
when the list is empty or a singleton, and otherwise is pushed at the head
and coalesced. -/
def tufree (h : Heap) (ptr : Option Nat) : Heap :=
  match ptr with
  | none => h
  | some p =>
    let tmp := p - headerWidth
    let tb := h.get tmp
    if tmp + tb.size + headerWidth = h.brk then
      let h1 :=
        if h.head = some tmp then { h with head := none }
        else
          match find_prev h tmp with
          | some pp => h.set pp ⟨(h.get pp).size, none⟩
          | none => h
      { h1 with brk := h1.brk - ((h1.get tmp).size + headerWidth) }
    else
      match h.head with
      | none => { h.set tmp ⟨tb.size, none⟩ with head := some tmp }
      | some a0 =>
        if (h.get a0).next = none then
          { h.set tmp ⟨tb.size, none⟩ with head := some tmp }
        else
          let h1 := h.set tmp ⟨tb.size, h.head⟩
          let pr := coalesce h1 (some tmp)
          { pr.2 with head := pr.1 }

/-- `turealloc` from `alloc.c`: null/zero arguments delegate to `tumalloc`;
a block already large enough is returned unchanged; otherwise allocate,
copy `min(newSize, oldSize)` bytes (the old size re-read after the
allocation, as the C code does), free the old block, return the new one. -/
def turealloc (h : Heap) (ptr : Option Nat) (newSize : Nat) : Option Nat × Heap :=
  match ptr with
  | none => tumalloc h newSize
  | some p =>
    if newSize = 0 then tumalloc h newSize
    else
      let hdrAddr := p - headerWidth
      if newSize ≤ (h.get hdrAddr).size then (some p, h)
      else
        match tumalloc h newSize with
        | (none, h1) => (none, h1)
        | (some redo, h1) =>
          let copyLen := min newSize ((h1.get hdrAddr).size)
          let h2 := { h1 with mem := memcpyMem h1.mem redo p copyLen }
          (some redo, tufree h2 (some p))

/-! ### Basic lemmas about the header store -/

theorem lookupB_update_self (l : List (Nat × BlockHdr)) (a : Nat) (b : BlockHdr) :
    lookupB (updateB l a b) a = some b := by
  induction l with
  | nil => simp [updateB, lookupB]
  | cons hd tl ih =>
    obtain ⟨a0, b0⟩ := hd
    by_cases hcase : a0 = a
    · simp [updateB, hcase, lookupB]
    · simp [updateB, hcase, lookupB, ih]

theorem lookupB_update_other (l : List (Nat × BlockHdr)) (a x : Nat) (b : BlockHdr)
    (hx : x ≠ a) : lookupB (updateB l a b) x = lookupB l x := by
  induction l with
  | nil => simp [updateB, lookupB, Ne.symm hx]
  | cons hd tl ih =>
    obtain ⟨a0, b0⟩ := hd
    by_cases hcase : a0 = a
    · subst hcase
      simp [updateB, lookupB, Ne.symm hx]
    · by_cases hx0 : a0 = x
      · simp [updateB, hcase, lookupB, hx0, hx]
      · simp [updateB, hcase, lookupB, hx0, ih]

theorem Heap.get_set_self (h : Heap) (a : Nat) (b : BlockHdr) :
    (h.set a b).get a = b := by
  simp [Heap.get, Heap.set, lookupB_update_self]

theorem Heap.get_set_other (h : Heap) (a x : Nat) (b : BlockHdr) (hx : x ≠ a) :
    (h.set a b).get x = h.get x := by
  simp [Heap.get, Heap.set, lookupB_update_other _ _ _ _ hx]

@[simp] theorem Heap.get_withHead (h : Heap) (o : Option Nat) (a : Nat) :
    ({ h with head := o } : Heap).get a = h.get a := rfl

@[simp] theorem Heap.get_withBrk (h : Heap) (n : Nat) (a : Nat) :
    ({ h with brk := n } : Heap).get a = h.get a := rfl

@[simp] theorem Heap.get_withMem (h : Heap) (m : Nat → Nat) (a : Nat) :
    ({ h with mem := m } : Heap).get a = h.get a := rfl

theorem Heap.get_set_size (h : Heap) (c : Nat) (nx : Option Nat) (x : Nat) :
    ((h.set c ⟨(h.get c).size, nx⟩).get x).size = (h.get x).size := by
  by_cases hx : x = c
  · subst hx; rw [Heap.get_set_self]
  · rw [Heap.get_set_other _ _ _ _ hx]

/-! ### `remove_free_block` never changes a stored size -/

theorem removeLoop_get_size (h : Heap) (ba x : Nat) :
    ∀ fuel c, ((removeLoop h ba c fuel).get x).size = (h.get x).size := by
  intro fuel
  induction fuel with
  | zero => intro c; rfl
  | succ n ih =>
    intro c
    simp only [removeLoop]
    by_cases hn : (h.get c).next = some ba
    · simp [hn, Heap.get_set_size]
    · simp only [hn, if_false]
      cases hcn : (h.get c).next with
      | none => simp
      | some c2 => simp [ih]

theorem remove_get_size (h : Heap) (ba x : Nat) :
    ((remove_free_block h ba).get x).size = (h.get x).size := by
  unfold remove_free_block
  cases hh : h.head with
  | none => rfl
  | some c =>
    by_cases hc : c = ba
    · simp [hc]
    · simp [hc, removeLoop_get_size]

/-! ### `tumalloc` failure leaves the heap untouched -/

theorem do_alloc_none (h : Heap) (s : Nat) (h' : Heap)
    (hres : do_alloc h s = (none, h')) : h' = h := by
  unfold do_alloc at hres
  split at hres
  · exact (congrArg Prod.snd hres).symm
  · dsimp only at hres
    split at hres
    · exact (congrArg Prod.snd hres).symm
    · exact absurd (congrArg Prod.fst hres) (by simp)

theorem tumallocLoop_none (h : Heap) (s : Nat) (h' : Heap) :
    ∀ fuel cur, tumallocLoop h s cur fuel = (none, h') → h' = h := by
  intro fuel
  induction fuel with
  | zero =>
    intro cur hres
    cases cur with
    | none => exact do_alloc_none h s h' hres
    | some a => exact do_alloc_none h s h' hres
  | succ n ih =>
    intro cur hres
    cases cur with
    | none => exact do_alloc_none h s h' hres
    | some a =>
      dsimp only [tumallocLoop] at hres
      by_cases hfit : s ≤ (h.get a).size
      · rw [if_pos hfit] at hres
        by_cases hsp : s + headerWidth ≤ ((remove_free_block h a).get a).size
        · rw [if_pos hsp] at hres
          exact absurd (congrArg Prod.fst hres) (by simp)
        · rw [if_neg hsp] at hres
          exact absurd (congrArg Prod.fst hres) (by simp)
      · rw [if_neg hfit] at hres
        exact ih _ hres

theorem tumalloc_none (h : Heap) (s : Nat) (h' : Heap)
    (hres : tumalloc h s = (none, h')) : h' = h := by
  unfold tumalloc at hres
  split at hres
  · exact (congrArg Prod.snd hres).symm
  · exact tumallocLoop_none h s h' _ _ hres

/-! ### What `split` writes -/

theorem intAsSizeT_toInt32_small (n : Nat) (hn : n < 2 ^ 31) :
    intAsSizeT (toInt32 n) = n := by
  unfold toInt32 intAsSizeT
  have h32 : n % 2 ^ 32 = n := Nat.mod_eq_of_lt (by omega)
  rw [h32, if_pos hn]
  omega

theorem split_get_donor (h1 : Heap) (a S : Nat) (hS31 : S < 2 ^ 31)
    (hsp : S + headerWidth ≤ (h1.get a).size) :
    (((split h1 a S).2).get a).size = S := by
  unfold split
  rw [intAsSizeT_toInt32_small S hS31]
  dsimp only
  have hm : (S + headerWidth) % 2 ^ 64 = S + headerWidth :=
    Nat.mod_eq_of_lt (by simp only [headerWidth]; omega)
  rw [hm, if_neg (Nat.not_lt.mpr hsp)]
  dsimp only
  rw [Heap.get_set_self]

theorem chainN_set_of_notMem (h : Heap) (x : Nat) (b : BlockHdr) :
    ∀ n o L, chainN h o n = some L → x ∉ L → chainN (h.set x b) o n = some L := by
  intro n
  induction n with
  | zero =>
    intro o L hc hx
    cases o with
    | none => simpa [chainN] using hc
    | some a => simp [chainN] at hc
  | succ m ih =>
    intro o L hc hx
    cases o with
    | none => simpa [chainN] using hc
    | some a =>
      simp only [chainN] at hc ⊢
      cases hcn : chainN h (h.get a).next m with
      | none => rw [hcn] at hc; simp at hc
      | some L2 =>
        rw [hcn] at hc
        simp only [Option.map_some'] at hc
        have hL : a :: L2 = L := by injection hc
        subst hL
        have hxa : x ≠ a := fun e => hx (by simp [e])
        have hx2 : x ∉ L2 := fun e => hx (by simp [e])
        rw [Heap.get_set_other _ _ _ _ (Ne.symm hxa)]
        rw [ih _ _ hcn hx2]
        rfl

/-! ### Projections of heap updates -/

@[simp] theorem Heap.head_set (h : Heap) (x : Nat) (b : BlockHdr) :
    (h.set x b).head = h.head := rfl

@[simp] theorem Heap.brk_set (h : Heap) (x : Nat) (b : BlockHdr) :
    (h.set x b).brk = h.brk := rfl

@[simp] theorem Heap.head_withHead (h : Heap) (o : Option Nat) :
    ({ h with head := o } : Heap).head = o := rfl

@[simp] theorem Heap.brk_withHead (h : Heap) (o : Option Nat) :
    ({ h with head := o } : Heap).brk = h.brk := rfl

theorem updateB_updateB (l : List (Nat × BlockHdr)) (a : Nat) (X Y : BlockHdr) :
    updateB (updateB l a X) a Y = updateB l a Y := by
  induction l with
  | nil => simp [updateB]
  | cons hd tl ih =>
    obtain ⟨a0, b0⟩ := hd
    by_cases hcase : a0 = a
    · simp [updateB, hcase]
    · simp [updateB, hcase, ih]

theorem Heap.set_set_self (h : Heap) (a : Nat) (X Y : BlockHdr) :
    (h.set a X).set a Y = h.set a Y := by
  simp [Heap.set, updateB_updateB]

/-! ### More chain lemmas -/

theorem chainN_ext (h h' : Heap) (hg : ∀ x, h.get x = h'.get x) :
    ∀ o n, chainN h o n = chainN h' o n := by
  intro o n
  induction n generalizing o with
  | zero => cases o <;> rfl
  | succ m ih =>
    cases o with
    | none => rfl
    | some a => simp only [chainN, hg, ih]

theorem chainN_cons (h : Heap) (a n : Nat) (L : List Nat)
    (hc : chainN h (some a) n = some L) :
    ∃ m L1, n = m + 1 ∧ L = a :: L1 ∧ chainN h (h.get a).next m = some L1 := by
  cases n with
  | zero => simp [chainN] at hc
  | succ m =>
    simp only [chainN] at hc
    cases h2 : chainN h (h.get a).next m with
    | none => rw [h2] at hc; simp at hc
    | some L1 =>
      rw [h2] at hc
      simp only [Option.map_some'] at hc
      have he : a :: L1 = L := by injection hc
      exact ⟨m, L1, rfl, he.symm, h2⟩

/-! ### The neighbour scans miss a chain with no adjacent entry -/

theorem findPrevGo_none_of_chain (h : Heap) (ba : Nat) :
    ∀ fuel o m L, chainN h o m = some L →
      (∀ x ∈ L, x + (h.get x).size + headerWidth ≠ ba) →
      findPrevGo h ba o fuel = none := by
  intro fuel
  induction fuel with
  | zero => intro o m L hc hna; cases o <;> rfl
  | succ k ih =>
    intro o m L hc hna
    cases o with
    | none => rfl
    | some c =>
      obtain ⟨m1, L1, rfl, rfl, hc1⟩ := chainN_cons h c m L hc
      simp only [findPrevGo]
      rw [if_neg (hna c (by simp))]
      exact ih (h.get c).next m1 L1 hc1 (fun x hx => hna x (by simp [hx]))

theorem findNextGo_none_of_chain (h : Heap) (bEnd : Nat) :
    ∀ fuel o m L, chainN h o m = some L →
      (∀ x ∈ L, x ≠ bEnd) →
      findNextGo h bEnd o fuel = none := by
  intro fuel
  induction fuel with
  | zero => intro o m L hc hna; cases o <;> rfl
  | succ k ih =>
    intro o m L hc hna
    cases o with
    | none => rfl
    | some c =>
      obtain ⟨m1, L1, rfl, rfl, hc1⟩ := chainN_cons h c m L hc
      simp only [findNextGo]
      rw [if_neg (hna c (by simp))]
      exact ih (h.get c).next m1 L1 hc1 (fun x hx => hna x (by simp [hx]))

/-! ### Closed forms of `coalesce` in the cases the proofs meet -/

theorem coalesce_no_merge (h : Heap) (b0 : Nat)
    (hprev : find_prev h b0 = none) (hnext : find_next h b0 = none) :
    coalesce h (some b0) = (some b0, h) := by
  unfold coalesce
  dsimp only
  rw [hprev, hnext]

theorem coalesce_prev_only (h : Heap) (b0 p : Nat)
    (hprev : find_prev h b0 = some p) (hnext : find_next h b0 = none)
    (hadj : p + (h.get p).size + headerWidth = b0)
    (hskip : (h.get p).next ≠ some b0) :
    coalesce h (some b0) =
      (some p, h.set p ⟨(h.get p).size + (h.get b0).size + headerWidth, (h.get p).next⟩) := by
  unfold coalesce
  dsimp only
  rw [hprev, hnext]
  dsimp only
  rw [if_pos hadj, Heap.get_set_self]
  dsimp only
  rw [if_neg hskip]

theorem coalesce_next_only (h : Heap) (b0 nx : Nat)
    (hprev : find_prev h b0 = none) (hnext : find_next h b0 = some nx)
    (hadj : b0 + (h.get b0).size + headerWidth = nx) :
    coalesce h (some b0) =
      (some b0, h.set b0 ⟨(h.get b0).size + (h.get nx).size + headerWidth,
        (h.get nx).next⟩) := by
  have hne : nx ≠ b0 := by simp only [headerWidth] at hadj; omega
  unfold coalesce
  dsimp only
  rw [hprev, hnext]
  dsimp only
  rw [if_pos hadj, Heap.get_set_self, Heap.get_set_other _ _ _ _ hne, Heap.set_set_self]

/-! ### The non-trailing release branch with at least two list entries -/

theorem tufree_push_coalesce (h : Heap) (tmp a0 a1 : Nat)
    (hhead : h.head = some a0) (hnx : (h.get a0).next = some a1)
    (hnt : tmp + (h.get tmp).size + headerWidth ≠ h.brk) :
    tufree h (some (tmp + headerWidth)) =
      { (coalesce (h.set tmp ⟨(h.get tmp).size, some a0⟩) (some tmp)).2 with
        head := (coalesce (h.set tmp ⟨(h.get tmp).size, some a0⟩) (some tmp)).1 } := by
  dsimp only [tufree]
  rw [Nat.add_sub_cancel]
  rw [if_neg hnt]
  rw [hhead]
  dsimp only
  have hcond : ¬ ((h.get a0).next = none) := by rw [hnx]; simp
  rw [if_neg hcond]

/-! ### Claim C7: zero/overflow guards -/

/-- C7: `tumalloc 0`, `tucalloc 0 k`, `tucalloc k 0`, and `tucalloc num esz`
with `num * esz` overflowing `size_t` all return the failure sentinel and
leave the heap (free list, headers, break) completely unchanged. -/
theorem zero_overflow_guards (h : Heap) (k num esz : Nat) :
    tumalloc h 0 = (none, h) ∧
    tucalloc h 0 k = (none, h) ∧
    tucalloc h k 0 = (none, h) ∧
    (0 < esz → SIZE_MAX < num * esz → tucalloc h num esz = (none, h)) := by
  refine ⟨by simp [tumalloc], by simp [tucalloc], by simp [tucalloc], ?_⟩
  intro hesz hovf
  have hnum : ¬(num = 0 ∨ esz = 0) := by
    rintro (rfl | rfl)
    · simp at hovf
    · simp at hovf
  have hdiv : SIZE_MAX / esz < num := (Nat.div_lt_iff_lt_mul hesz).mpr hovf
  unfold tucalloc
  rw [if_neg hnum, if_pos hdiv]

/-- Heap used to witness C7 at a concrete overflowing input. -/
def H7w : Heap := ⟨[(100, ⟨8, none⟩)], some 100, 200, 200, fun _ => 0⟩

/-- Witness for C7: `tucalloc` with `2^63 * 4` overflowing `size_t`
fails and leaves the concrete heap `H7w` unchanged. -/
theorem zero_overflow_guards_witness :
    tucalloc H7w (2 ^ 63) 4 = (none, H7w) :=
  (zero_overflow_guards H7w 0 (2 ^ 63) 4).2.2.2 (by decide) (by decide)

/-! ### Claim C8: a failed reallocation leaves the old block intact -/

/-- C8: when the block at `p` is smaller than `S` and the internal
`tumalloc` fails, `turealloc` returns the failure sentinel and the heap —
the old block's header, its payload bytes, its absence from the free
list — is exactly the input heap. -/
theorem turealloc_fail_intact (h : Heap) (p S : Nat)
    (hbig : (h.get (p - headerWidth)).size < S)
    (hfail : (tumalloc h S).1 = none) :
    turealloc h (some p) S = (none, h) := by
  have hS : ¬(S = 0) := by omega
  dsimp only [turealloc]
  rw [if_neg hS, if_neg (Nat.not_le.mpr hbig)]
  cases hres : tumalloc h S with
  | mk r h1 =>
    cases r with
    | none =>
      have hh := tumalloc_none h S h1 hres
      subst hh
      rfl
    | some redo =>
      rw [hres] at hfail
      simp at hfail

/-- Heap used to witness C8: one allocated block of size 8 at address 100,
empty free list, and the OS break limit already reached. -/
def H8w : Heap := ⟨[(100, ⟨8, none⟩)], none, 200, 200, fun _ => 0⟩

/-- Witness for C8 at `H8w`: growing the 8-byte block to 50 bytes fails
(the break cannot move) and the heap is returned unchanged. -/
theorem turealloc_fail_intact_witness :
    turealloc H8w (some 116) 50 = (none, H8w) :=
  turealloc_fail_intact H8w 116 50 (by decide) (by decide)

/-! ### Claim C9: reallocate never shrinks -/

/-- C9: for `0 < S` at most the recorded size of the block at `p`,
`turealloc` returns the very same pointer and the very same heap —
no copy, no new allocation, no header or free-list change. -/
theorem turealloc_noshrink (h : Heap) (p S : Nat) (hS : 0 < S)
    (hfit : S ≤ (h.get (p - headerWidth)).size) :
    turealloc h (some p) S = (some p, h) := by
  have hS0 : ¬(S = 0) := by omega
  dsimp only [turealloc]
  rw [if_neg hS0, if_pos hfit]

/-- Heap used to witness C9. -/
def H9w : Heap := ⟨[(100, ⟨8, none⟩)], none, 200, 200, fun _ => 0⟩

/-- Witness for C9 at `H9w`: shrinking the 8-byte block at 100 to 5 bytes
returns the same pointer and the unchanged heap. -/
theorem turealloc_noshrink_witness :
    turealloc H9w (some 116) 5 = (some 116, H9w) :=
  turealloc_noshrink H9w 116 5 (by decide) (by decide)

/-! ### Claim C10: reallocate to size zero -/

/-- C10: `turealloc` on a non-null pointer with `newSize = 0` returns the
failure sentinel and does not release the block: the heap — free list,
headers, break — is exactly the input heap. -/
theorem turealloc_zero_no_release (h : Heap) (p : Nat) :
    turealloc h (some p) 0 = (none, h) := by
  simp [turealloc, tumalloc]

/-! ### Claim C6: a returned block's recorded size covers the request -/

theorem do_alloc_some_size (h : Heap) (s p : Nat) (h' : Heap)
    (hres : do_alloc h s = (some p, h')) :
    s ≤ ((h'.get (p - headerWidth)).size) := by
  unfold do_alloc at hres
  split at hres
  · exact absurd (congrArg Prod.fst hres) (by simp)
  · dsimp only at hres
    split at hres
    · exact absurd (congrArg Prod.fst hres) (by simp)
    · injection hres with e1 e2
      injection e1 with e1
      subst e1
      subst e2
      rw [Nat.add_sub_cancel, Heap.get_set_self]

theorem tumallocLoop_some_size (h : Heap) (s p : Nat) (h' : Heap) (hs31 : s < 2 ^ 31) :
    ∀ fuel cur, tumallocLoop h s cur fuel = (some p, h') →
      s ≤ ((h'.get (p - headerWidth)).size) := by
  intro fuel
  induction fuel with
  | zero =>
    intro cur hres
    cases cur with
    | none => exact do_alloc_some_size h s p h' hres
    | some a => exact do_alloc_some_size h s p h' hres
  | succ n ih =>
    intro cur hres
    cases cur with
    | none => exact do_alloc_some_size h s p h' hres
    | some a =>
      dsimp only [tumallocLoop] at hres
      by_cases hfit : s ≤ (h.get a).size
      · rw [if_pos hfit] at hres
        by_cases hsp : s + headerWidth ≤ ((remove_free_block h a).get a).size
        · rw [if_pos hsp] at hres
          injection hres with e1 e2
          injection e1 with e1
          subst e1
          subst e2
          rw [Nat.add_sub_cancel]
          have hne : a ≠ a + s + headerWidth := by simp only [headerWidth]; omega
          have key : ∀ X : BlockHdr,
              (((split (remove_free_block h a) a s).2.set (a + s + headerWidth) X).get a).size
                = s := by
            intro X
            rw [Heap.get_set_other _ _ _ _ hne, split_get_donor _ _ _ hs31 hsp]
          cases hh : (remove_free_block h a).head with
          | none => simp only [hh]; rw [Heap.get_withHead, key]
          | some a0 =>
            simp only [hh]
            by_cases hnx : ((split (remove_free_block h a) a s).2.get a0).next = none
            · rw [if_pos hnx, Heap.get_withHead, key]
            · rw [if_neg hnx, Heap.get_withHead, key]
        · rw [if_neg hsp] at hres
          injection hres with e1 e2
          injection e1 with e1
          subst e1
          subst e2
          rw [Nat.add_sub_cancel, remove_get_size]
          exact hfit
      · rw [if_neg hfit] at hres
        exact ih _ hres

/-- Heap for the C6 counterexample: the free list holds one block of size
`2^32 + 16` at address 100. -/
def H6c : Heap := ⟨[(100, ⟨2 ^ 32 + 16, none⟩)], some 100, 2 ^ 33, 2 ^ 33, fun _ => 0⟩

/-- C6 counterexample: `tumalloc (2^32)` chooses the `2^32 + 16`-byte free
block (first fit, and it has a full header of surplus), but the request
passed to `split`'s `int` parameter wraps to `0`, so `split` succeeds and
truncates the block's recorded size to `0 < 2^32`: the returned pointer's
header records a size smaller than the request. -/
theorem tumalloc_wrapped_request_small_size :
    (tumalloc H6c (2 ^ 32)).1 = some 116 ∧
    (((tumalloc H6c (2 ^ 32)).2).get (116 - headerWidth)).size = 0 ∧
    ¬ (2 ^ 32 ≤ (((tumalloc H6c (2 ^ 32)).2).get (116 - headerWidth)).size) := by
  decide

/-- C6 (amended): whenever `tumalloc S` with `0 < S < 2^31` (a request
that survives the `size_t` to `int` conversion at `split`'s parameter)
returns a pointer `p`, the recorded size of the block whose header sits
at `p - headerWidth` is at least `S`, on every heap — whether the block
came from the free list (split or not) or from fresh growth.  Larger
requests can wrap at that conversion and record a smaller size. -/
theorem tumalloc_size_ge (h : Heap) (S p : Nat) (hS : 0 < S) (hS31 : S < 2 ^ 31)
    (hres : (tumalloc h S).1 = some p) :
    S ≤ ((((tumalloc h S).2).get (p - headerWidth)).size) := by
  cases hres2 : tumalloc h S with
  | mk r h2 =>
    rw [hres2] at hres
    dsimp only at hres
    subst hres
    unfold tumalloc at hres2
    rw [if_neg (by omega : ¬ S = 0)] at hres2
    exact tumallocLoop_some_size h S p h2 hS31 _ _ hres2

/-- Heap used to witness C6: empty free list, break at 1000. -/
def H6w : Heap := ⟨[], none, 1000, 2000, fun _ => 0⟩

/-- Witness for C6: `tumalloc H6w 5` returns pointer 1016, and the header
at `1016 - headerWidth` records at least 5 payload bytes. -/
theorem tumalloc_size_ge_witness :
    5 ≤ ((((tumalloc H6w 5).2).get (1016 - headerWidth)).size) :=
  tumalloc_size_ge H6w 5 1016 (by decide) (by decide) (by decide)

/-! ### Claim C5: split correctness -/

/-- Heap for the C2 counterexample: allocated block of size 16 at 100
(payload pointer 116, not heap-trailing), free list holding exactly the
one block at 300. -/
def H2c : Heap := ⟨[(100, ⟨16, none⟩), (300, ⟨16, none⟩)], some 300, 500, 500, fun _ => 0⟩

/-- C2 counterexample: freeing the non-trailing block at 100 while the
free list holds the single entry 300 does NOT chain the old head — the
new head's `next` is `none` and the whole reachable list is `[100]`, so
the previous entry 300 is no longer reachable (and the coalescer was
never invoked). -/
theorem tufree_drops_single_head :
    (tufree H2c (some 116)).head = some 100 ∧
    ((tufree H2c (some 116)).get 100).next = none ∧
    chainN (tufree H2c (some 116)) (tufree H2c (some 116)).head 3 = some [100] := by
  decide

/-- C2 (amended): releasing a non-trailing block when the free list holds
at least two entries (`a0` then `a1`) writes the old head into the block's
`next` — making every previously listed block reachable from it — and
hands the block to the coalescer, whose result becomes the new head. -/
theorem tufree_insert_coalesce (h : Heap) (tmp a0 a1 n : Nat) (L : List Nat)
    (hhead : h.head = some a0) (hnx : (h.get a0).next = some a1)
    (hchain : chainN h (some a0) n = some L) (htmp : tmp ∉ L)
    (hnt : tmp + (h.get tmp).size + headerWidth ≠ h.brk) :
    chainN (h.set tmp ⟨(h.get tmp).size, some a0⟩) (some tmp) (n + 1)
        = some (tmp :: L) ∧
    tufree h (some (tmp + headerWidth)) =
      { (coalesce (h.set tmp ⟨(h.get tmp).size, some a0⟩) (some tmp)).2 with
        head := (coalesce (h.set tmp ⟨(h.get tmp).size, some a0⟩) (some tmp)).1 } := by
  constructor
  · simp only [chainN, Heap.get_set_self]
    rw [chainN_set_of_notMem h tmp ⟨(h.get tmp).size, some a0⟩ n (some a0) L hchain htmp]
    rfl
  · dsimp only [tufree]
    rw [Nat.add_sub_cancel]
    rw [if_neg hnt]
    rw [hhead]
    dsimp only
    have hcond : ¬ ((h.get a0).next = none) := by rw [hnx]; simp
    rw [if_neg hcond]

/-- Heap for the C2 witness: allocated block of size 100 at 1000, free
list `[3000, 4000]`. -/
def H2w : Heap := ⟨[(1000, ⟨100, none⟩), (3000, ⟨8, some 4000⟩), (4000, ⟨8, none⟩)],
  some 3000, 2000, 2000, fun _ => 0⟩

/-- Witness for C2 (amended) at `H2w`, `tmp = 1000`. -/
theorem tufree_insert_coalesce_witness :
    chainN (H2w.set 1000 ⟨(H2w.get 1000).size, some 3000⟩) (some 1000) (2 + 1)
        = some (1000 :: [3000, 4000]) ∧
    tufree H2w (some (1000 + headerWidth)) =
      { (coalesce (H2w.set 1000 ⟨(H2w.get 1000).size, some 3000⟩) (some 1000)).2 with
        head := (coalesce (H2w.set 1000 ⟨(H2w.get 1000).size, some 3000⟩) (some 1000)).1 } :=
  tufree_insert_coalesce H2w 1000 3000 4000 2 [3000, 4000]
    (by decide) (by decide) (by decide) (by decide) (by decide)

/-! ### Claim C4: release of a heap-trailing block -/

/-- Heap for the C4 counterexample: free list `[1000, 3000]` (the block at
1000 is the physical predecessor of the allocated block at 1116, whose end
`1116 + 50 + 16 = 1182` is the break). -/
def H4c : Heap := ⟨[(1000, ⟨100, some 3000⟩), (3000, ⟨8, none⟩), (1116, ⟨50, none⟩)],
  some 1000, 1182, 1182, fun _ => 0⟩

/-- C4 counterexample: releasing the trailing block at 1116 contracts the
break but does NOT leave the other free-list entries unchanged: entry 1000
loses its successor 3000 (its `next` is cut to `none`), so the reachable
list shrinks from `[1000, 3000]` to `[1000]`. -/
theorem tufree_trailing_drops_entries :
    chainN H4c H4c.head 3 = some [1000, 3000] ∧
    (tufree H4c (some 1132)).brk = 1116 ∧
    ((tufree H4c (some 1132)).get 1000).next = none ∧
    chainN (tufree H4c (some 1132)) (tufree H4c (some 1132)).head 3 = some [1000] := by
  decide

/-- C4 (amended): releasing a block whose end is the break, when the head
is not that block and the free-list scan finds a physical predecessor
`pp`, contracts the break by exactly `size + headerWidth` and sets `pp`'s
`next` to `none` — truncating the free list at `pp` (entries chained after
`pp` are dropped); nothing else changes. -/
theorem tufree_trailing_truncates (h : Heap) (tmp pp a0 : Nat)
    (hhead : h.head = some a0) (hne : a0 ≠ tmp) (hpt : pp ≠ tmp)
    (hprev : find_prev h tmp = some pp)
    (htrail : tmp + (h.get tmp).size + headerWidth = h.brk) :
    tufree h (some (tmp + headerWidth)) =
      { h.set pp ⟨(h.get pp).size, none⟩ with
        brk := h.brk - ((h.get tmp).size + headerWidth) } := by
  dsimp only [tufree]
  rw [Nat.add_sub_cancel]
  rw [if_pos htrail]
  have hht : ¬ (h.head = some tmp) := by
    rw [hhead]
    intro e
    injection e with e
    exact hne e
  rw [if_neg hht, hprev]
  dsimp only
  rw [Heap.get_set_other _ _ _ _ (Ne.symm hpt)]
  rfl

/-- Witness for C4 (amended) at `H4c`: releasing pointer 1132 yields the
truncated heap predicted by the theorem. -/
theorem tufree_trailing_truncates_witness :
    tufree H4c (some (1116 + headerWidth)) =
      { H4c.set 1000 ⟨(H4c.get 1000).size, none⟩ with
        brk := H4c.brk - ((H4c.get 1116).size + headerWidth) } :=
  tufree_trailing_truncates H4c 1116 1000 1000
    (by decide) (by decide) (by decide) (by decide) (by decide)

/-! ### Claim C1: zero-fill extent of `tucalloc` -/

/-- Heap for C1: free list holding one block of size 8 at address 100,
whose payload bytes all read 7 (stale contents from earlier use). -/
def H1c : Heap := ⟨[(100, ⟨8, none⟩)], some 100, 500, 500, fun _ => 7⟩

/-- C1 evaluation: `tucalloc 2 4` succeeds (payload pointer 116, reusing
the free block, so `count * elemSize = 8` payload bytes run from 116 to
123) but the C code's `memset(block, 0, size)` zeroes only `elemSize = 4`
bytes: byte offset 3 is zeroed while byte offset 5 still reads 7. -/
theorem tucalloc_zero_fill_stops_at_elemSize :
    (tucalloc H1c 2 4).1 = some 116 ∧
    ((tucalloc H1c 2 4).2).mem (116 + 3) = 0 ∧
    ((tucalloc H1c 2 4).2).mem (116 + 5) = 7 := by
  decide

/-! ### Claim C3: releasing two physically adjacent blocks -/

/-- Fresh heap for the C3 counterexample (the spec's own scenario):
empty free list, break at 1000. -/
def H3c : Heap := ⟨[], none, 1000, 2000, fun _ => 0⟩

/-- First step of the C3 counterexample run: `allocate(100)`. -/
def C3a : Option Nat × Heap := tumalloc H3c 100

/-- Second step: `allocate(50)` (physically adjacent to the first). -/
def C3b : Option Nat × Heap := tumalloc C3a.2 50

/-- Third step: release the first block. -/
def C3c : Heap := tufree C3b.2 C3a.1

/-- Fourth step: release the second block. -/
def C3d : Heap := tufree C3c C3b.1

/-- C3 counterexample: `allocate(100)` (block at 1000), `allocate(50)`
(block at 1116, physically adjacent: `1000 + 100 + 16 = 1116`), release
the first, release the second.  No free block of size
`100 + 50 + headerWidth = 166` results: the second block is heap-trailing
at its release and is returned to the OS (break contracts to 1116), and
the free list holds exactly the first block with its original size 100. -/
theorem release_adjacent_pair_not_coalesced :
    C3a.1 = some 1016 ∧
    C3b.1 = some 1132 ∧
    chainN C3d C3d.head 3 = some [1000] ∧
    (C3d.get 1000).size = 100 ∧
    ¬ ((C3d.get 1000).size = 100 + 50 + headerWidth) ∧
    C3d.brk = 1116 := by
  decide

/-- Outcome asserted by the amended C3: after both releases the free list
is exactly `a :: L`, the merged free block at `a` has size
`s1 + s2 + headerWidth` and chains `c0` (the old head), every other list
entry's header is untouched, and the break is unchanged. -/
def pairMerged (h hF : Heap) (a s1 s2 c0 n : Nat) (L : List Nat) : Prop :=
  hF.head = some a ∧
  hF.get a = ⟨s1 + s2 + headerWidth, some c0⟩ ∧
  chainN hF (some a) (n + 1) = some (a :: L) ∧
  (∀ x ∈ L, hF.get x = h.get x) ∧
  hF.brk = h.brk

/-- C3 (amended): for every pair of physically adjacent allocated blocks —
at `a` (size `s1`) and `b = a + s1 + headerWidth` (size `s2`) — and every
heap whose free list traverses at least two entries (`c0` then `c1`,
full chain `L`), none of them physically adjacent to the pair, with
neither block heap-trailing at its release, releasing both blocks in
either order yields exactly one free block covering the pair: the list
becomes `a :: L` with the block at `a` of size `s1 + s2 + headerWidth`,
every other entry and the break unchanged. -/
theorem release_adjacent_pair_coalesced_amended
    (h : Heap) (a b s1 s2 c0 c1 n : Nat) (L : List Nat)
    (hga : (h.get a).size = s1) (hgb : (h.get b).size = s2)
    (hb : b = a + s1 + headerWidth)
    (hhead : h.head = some c0) (hc01 : (h.get c0).next = some c1)
    (hchain : chainN h (some c0) n = some L)
    (haL : a ∉ L) (hbL : b ∉ L)
    (hpa : ∀ x ∈ L, x + (h.get x).size + headerWidth ≠ a)
    (hpb : ∀ x ∈ L, x + (h.get x).size + headerWidth ≠ b)
    (hnb : ∀ x ∈ L, x ≠ b + s2 + headerWidth)
    (hbrkA : b ≠ h.brk)
    (hbrkB : b + s2 + headerWidth ≠ h.brk) :
    pairMerged h (tufree (tufree h (some (a + headerWidth))) (some (b + headerWidth)))
      a s1 s2 c0 n L ∧
    pairMerged h (tufree (tufree h (some (b + headerWidth))) (some (a + headerWidth)))
      a s1 s2 c0 n L := by
  subst hga
  subst hgb
  have hab : a ≠ b := by simp only [headerWidth] at hb; omega
  have hba : b ≠ a := Ne.symm hab
  have hc0L : c0 ∈ L := by
    obtain ⟨m, L1, hn, hL, h1⟩ := chainN_cons h c0 n L hchain
    rw [hL]
    exact List.mem_cons_self c0 L1
  have hc0b : c0 ≠ b := fun e => hbL (e ▸ hc0L)
  have hxa : ∀ x ∈ L, x ≠ a := fun x hx e => haL (e ▸ hx)
  have hxb : ∀ x ∈ L, x ≠ b := fun x hx e => hbL (e ▸ hx)
  -- ===== order A then B =====
  have hntA : a + (h.get a).size + headerWidth ≠ h.brk := by rw [← hb]; exact hbrkA
  have hstep1 := tufree_push_coalesce h a c0 c1 hhead hc01 hntA
  have hchain1 : chainN (h.set a ⟨(h.get a).size, some c0⟩) (some c0) n = some L :=
    chainN_set_of_notMem h a _ n (some c0) L hchain haL
  have hget1 : ∀ x ∈ L, (h.set a ⟨(h.get a).size, some c0⟩).get x = h.get x :=
    fun x hx => Heap.get_set_other _ _ _ _ (hxa x hx)
  have hfp1 : find_prev (h.set a ⟨(h.get a).size, some c0⟩) a = none := by
    unfold find_prev
    rw [Heap.head_set, hhead]
    exact findPrevGo_none_of_chain _ a _ (some c0) n L hchain1
      (fun x hx => by rw [hget1 x hx]; exact hpa x hx)
  have hfn1 : find_next (h.set a ⟨(h.get a).size, some c0⟩) a = none := by
    unfold find_next
    rw [Heap.head_set, hhead, Heap.get_set_self]
    dsimp only
    rw [← hb]
    exact findNextGo_none_of_chain _ b _ (some c0) n L hchain1 (hxb)
  have hco1 : coalesce (h.set a ⟨(h.get a).size, some c0⟩) (some a)
      = (some a, h.set a ⟨(h.get a).size, some c0⟩) :=
    coalesce_no_merge _ a hfp1 hfn1
  have hAB1 : tufree h (some (a + headerWidth)) =
      { h.set a ⟨(h.get a).size, some c0⟩ with head := some a } := by
    rw [hstep1, hco1]
  -- second release: the heap after the first one
  have hH2b : ({ h.set a ⟨(h.get a).size, some c0⟩ with head := some a } : Heap).get b
      = h.get b := by
    rw [Heap.get_withHead, Heap.get_set_other _ _ _ _ hba]
  have hnxH2 : (({ h.set a ⟨(h.get a).size, some c0⟩ with head := some a } : Heap).get a).next
      = some c0 := by
    rw [Heap.get_withHead, Heap.get_set_self]
  have hntB : b + (({ h.set a ⟨(h.get a).size, some c0⟩ with head := some a } : Heap).get b).size
      + headerWidth
      ≠ ({ h.set a ⟨(h.get a).size, some c0⟩ with head := some a } : Heap).brk := by
    rw [hH2b, Heap.brk_withHead, Heap.brk_set]
    exact hbrkB
  have hstep2 := tufree_push_coalesce
    { h.set a ⟨(h.get a).size, some c0⟩ with head := some a } b a c0 rfl hnxH2 hntB
  rw [hH2b] at hstep2
  -- facts about H3 := (the heap after the first release).set b ⟨s2, some a⟩
  have hH3a : (({ h.set a ⟨(h.get a).size, some c0⟩ with head := some a } : Heap).set b
        ⟨(h.get b).size, some a⟩).get a = ⟨(h.get a).size, some c0⟩ := by
    rw [Heap.get_set_other _ _ _ _ hab, Heap.get_withHead, Heap.get_set_self]
  have hH3b : (({ h.set a ⟨(h.get a).size, some c0⟩ with head := some a } : Heap).set b
        ⟨(h.get b).size, some a⟩).get b = ⟨(h.get b).size, some a⟩ :=
    Heap.get_set_self _ _ _
  have hH3L : ∀ x ∈ L, (({ h.set a ⟨(h.get a).size, some c0⟩ with head := some a } : Heap).set b
        ⟨(h.get b).size, some a⟩).get x = h.get x := by
    intro x hx
    rw [Heap.get_set_other _ _ _ _ (hxb x hx), Heap.get_withHead,
      Heap.get_set_other _ _ _ _ (hxa x hx)]
  have hchainH2 : chainN ({ h.set a ⟨(h.get a).size, some c0⟩ with head := some a } : Heap)
      (some c0) n = some L := by
    rw [chainN_ext _ (h.set a ⟨(h.get a).size, some c0⟩) (fun x => Heap.get_withHead _ _ x)]
    exact hchain1
  have hchainH3 : chainN (({ h.set a ⟨(h.get a).size, some c0⟩ with head := some a } : Heap).set b
      ⟨(h.get b).size, some a⟩) (some c0) n = some L :=
    chainN_set_of_notMem _ b _ n (some c0) L hchainH2 hbL
  have hfp3 : find_prev (({ h.set a ⟨(h.get a).size, some c0⟩ with head := some a } : Heap).set b
      ⟨(h.get b).size, some a⟩) b = some a := by
    unfold find_prev
    rw [Heap.head_set, Heap.head_withHead]
    simp only [findPrevGo]
    rw [hH3a]
    dsimp only
    rw [if_pos hb.symm]
  have hane : a ≠ b + (h.get b).size + headerWidth := by
    simp only [headerWidth] at hb ⊢
    omega
  have hfn3 : find_next (({ h.set a ⟨(h.get a).size, some c0⟩ with head := some a } : Heap).set b
      ⟨(h.get b).size, some a⟩) b = none := by
    unfold find_next
    rw [Heap.head_set, Heap.head_withHead, hH3b]
    dsimp only
    simp only [findNextGo]
    rw [if_neg hane, hH3a]
    dsimp only
    exact findNextGo_none_of_chain _ _ _ (some c0) n L hchainH3 hnb
  have hco3 : coalesce (({ h.set a ⟨(h.get a).size, some c0⟩ with head := some a } : Heap).set b
        ⟨(h.get b).size, some a⟩) (some b)
      = (some a, (({ h.set a ⟨(h.get a).size, some c0⟩ with head := some a } : Heap).set b
          ⟨(h.get b).size, some a⟩).set a
          ⟨(h.get a).size + (h.get b).size + headerWidth, some c0⟩) := by
    rw [coalesce_prev_only _ b a hfp3 hfn3 (by rw [hH3a]; exact hb.symm)
      (by rw [hH3a]; intro e; exact hc0b (by injection e))]
    rw [hH3a, hH3b]
  have hABfin : tufree (tufree h (some (a + headerWidth))) (some (b + headerWidth)) =
      { (({ h.set a ⟨(h.get a).size, some c0⟩ with head := some a } : Heap).set b
          ⟨(h.get b).size, some a⟩).set a
          ⟨(h.get a).size + (h.get b).size + headerWidth, some c0⟩ with head := some a } := by
    rw [hAB1, hstep2, hco3]
  -- ===== order B then A =====
  have hntB0 : b + (h.get b).size + headerWidth ≠ h.brk := hbrkB
  have hstep1b := tufree_push_coalesce h b c0 c1 hhead hc01 hntB0
  have hchain1b : chainN (h.set b ⟨(h.get b).size, some c0⟩) (some c0) n = some L :=
    chainN_set_of_notMem h b _ n (some c0) L hchain hbL
  have hget1b : ∀ x ∈ L, (h.set b ⟨(h.get b).size, some c0⟩).get x = h.get x :=
    fun x hx => Heap.get_set_other _ _ _ _ (hxb x hx)
  have hfp1b : find_prev (h.set b ⟨(h.get b).size, some c0⟩) b = none := by
    unfold find_prev
    rw [Heap.head_set, hhead]
    exact findPrevGo_none_of_chain _ b _ (some c0) n L hchain1b
      (fun x hx => by rw [hget1b x hx]; exact hpb x hx)
  have hfn1b : find_next (h.set b ⟨(h.get b).size, some c0⟩) b = none := by
    unfold find_next
    rw [Heap.head_set, hhead, Heap.get_set_self]
    dsimp only
    exact findNextGo_none_of_chain _ _ _ (some c0) n L hchain1b hnb
  have hco1b : coalesce (h.set b ⟨(h.get b).size, some c0⟩) (some b)
      = (some b, h.set b ⟨(h.get b).size, some c0⟩) :=
    coalesce_no_merge _ b hfp1b hfn1b
  have hBA1 : tufree h (some (b + headerWidth)) =
      { h.set b ⟨(h.get b).size, some c0⟩ with head := some b } := by
    rw [hstep1b, hco1b]
  have hK2a : ({ h.set b ⟨(h.get b).size, some c0⟩ with head := some b } : Heap).get a
      = h.get a := by
    rw [Heap.get_withHead, Heap.get_set_other _ _ _ _ hab]
  have hnxK2 : (({ h.set b ⟨(h.get b).size, some c0⟩ with head := some b } : Heap).get b).next
      = some c0 := by
    rw [Heap.get_withHead, Heap.get_set_self]
  have hntA2 : a + (({ h.set b ⟨(h.get b).size, some c0⟩ with head := some b } : Heap).get a).size
      + headerWidth
      ≠ ({ h.set b ⟨(h.get b).size, some c0⟩ with head := some b } : Heap).brk := by
    rw [hK2a, Heap.brk_withHead, Heap.brk_set, ← hb]
    exact hbrkA
  have hstep2b := tufree_push_coalesce
    { h.set b ⟨(h.get b).size, some c0⟩ with head := some b } a b c0 rfl hnxK2 hntA2
  rw [hK2a] at hstep2b
  have hK3a : (({ h.set b ⟨(h.get b).size, some c0⟩ with head := some b } : Heap).set a
        ⟨(h.get a).size, some b⟩).get a = ⟨(h.get a).size, some b⟩ :=
    Heap.get_set_self _ _ _
  have hK3b : (({ h.set b ⟨(h.get b).size, some c0⟩ with head := some b } : Heap).set a
        ⟨(h.get a).size, some b⟩).get b = ⟨(h.get b).size, some c0⟩ := by
    rw [Heap.get_set_other _ _ _ _ hba, Heap.get_withHead, Heap.get_set_self]
  have hK3L : ∀ x ∈ L, (({ h.set b ⟨(h.get b).size, some c0⟩ with head := some b } : Heap).set a
        ⟨(h.get a).size, some b⟩).get x = h.get x := by
    intro x hx
    rw [Heap.get_set_other _ _ _ _ (hxa x hx), Heap.get_withHead,
      Heap.get_set_other _ _ _ _ (hxb x hx)]
  have hchainK2 : chainN ({ h.set b ⟨(h.get b).size, some c0⟩ with head := some b } : Heap)
      (some c0) n = some L := by
    rw [chainN_ext _ (h.set b ⟨(h.get b).size, some c0⟩) (fun x => Heap.get_withHead _ _ x)]
    exact hchain1b
  have hchainK3 : chainN (({ h.set b ⟨(h.get b).size, some c0⟩ with head := some b } : Heap).set a
      ⟨(h.get a).size, some b⟩) (some c0) n = some L :=
    chainN_set_of_notMem _ a _ n (some c0) L hchainK2 haL
  have hbne : b + (h.get b).size + headerWidth ≠ a := Ne.symm hane
  have hfp3b : find_prev (({ h.set b ⟨(h.get b).size, some c0⟩ with head := some b } : Heap).set a
      ⟨(h.get a).size, some b⟩) a = none := by
    unfold find_prev
    rw [Heap.head_set, Heap.head_withHead]
    simp only [findPrevGo]
    rw [hK3b]
    dsimp only
    rw [if_neg hbne]
    exact findPrevGo_none_of_chain _ a _ (some c0) n L hchainK3
      (fun x hx => by rw [hK3L x hx]; exact hpa x hx)
  have hfn3b : find_next (({ h.set b ⟨(h.get b).size, some c0⟩ with head := some b } : Heap).set a
      ⟨(h.get a).size, some b⟩) a = some b := by
    unfold find_next
    rw [Heap.head_set, Heap.head_withHead, hK3a]
    dsimp only
    simp only [findNextGo]
    rw [if_pos hb]
  have hco3b : coalesce (({ h.set b ⟨(h.get b).size, some c0⟩ with head := some b } : Heap).set a
        ⟨(h.get a).size, some b⟩) (some a)
      = (some a, (({ h.set b ⟨(h.get b).size, some c0⟩ with head := some b } : Heap).set a
          ⟨(h.get a).size, some b⟩).set a
          ⟨(h.get a).size + (h.get b).size + headerWidth, some c0⟩) := by
    rw [coalesce_next_only _ a b hfp3b hfn3b (by rw [hK3a]; exact hb.symm)]
    rw [hK3a, hK3b]
  have hBAfin : tufree (tufree h (some (b + headerWidth))) (some (a + headerWidth)) =
      { (({ h.set b ⟨(h.get b).size, some c0⟩ with head := some b } : Heap).set a
          ⟨(h.get a).size, some b⟩).set a
          ⟨(h.get a).size + (h.get b).size + headerWidth, some c0⟩ with head := some a } := by
    rw [hBA1, hstep2b, hco3b]
  -- ===== the two conclusions =====
  constructor
  · rw [pairMerged, hABfin]
    refine ⟨rfl, ?_, ?_, ?_, rfl⟩
    · rw [Heap.get_withHead, Heap.get_set_self]
    · simp only [chainN, Heap.get_withHead, Heap.get_set_self]
      have hcc : chainN ({ (({ h.set a ⟨(h.get a).size, some c0⟩ with head := some a } : Heap).set b
            ⟨(h.get b).size, some a⟩).set a
            ⟨(h.get a).size + (h.get b).size + headerWidth, some c0⟩ with head := some a } : Heap)
          (some c0) n = some L := by
        rw [chainN_ext _ ((({ h.set a ⟨(h.get a).size, some c0⟩ with head := some a } : Heap).set b
            ⟨(h.get b).size, some a⟩).set a
            ⟨(h.get a).size + (h.get b).size + headerWidth, some c0⟩) (fun x => Heap.get_withHead _ _ x)]
        exact chainN_set_of_notMem _ a _ n (some c0) L hchainH3 haL
      rw [hcc]
      rfl
    · intro x hx
      rw [Heap.get_withHead, Heap.get_set_other _ _ _ _ (hxa x hx), hH3L x hx]
  · rw [pairMerged, hBAfin]
    refine ⟨rfl, ?_, ?_, ?_, rfl⟩
    · rw [Heap.get_withHead, Heap.get_set_self]
    · simp only [chainN, Heap.get_withHead, Heap.get_set_self]
      have hcc : chainN ({ (({ h.set b ⟨(h.get b).size, some c0⟩ with head := some b } : Heap).set a
            ⟨(h.get a).size, some b⟩).set a
            ⟨(h.get a).size + (h.get b).size + headerWidth, some c0⟩ with head := some a } : Heap)
          (some c0) n = some L := by
        rw [chainN_ext _ ((({ h.set b ⟨(h.get b).size, some c0⟩ with head := some b } : Heap).set a
            ⟨(h.get a).size, some b⟩).set a
            ⟨(h.get a).size + (h.get b).size + headerWidth, some c0⟩) (fun x => Heap.get_withHead _ _ x)]
        exact chainN_set_of_notMem _ a _ n (some c0) L hchainK3 haL
      rw [hcc]
      rfl
    · intro x hx
      rw [Heap.get_withHead, Heap.get_set_other _ _ _ _ (hxa x hx), hK3L x hx]

/-- Heap for the C3 witness: adjacent blocks of sizes 100 (at 1000) and 50
(at 1116) are allocated, neither is heap-trailing (break 2000), and the
free list holds two far-away entries `[3000, 4000]`. -/
def H3p : Heap := ⟨[(1000, ⟨100, none⟩), (1116, ⟨50, none⟩),
  (3000, ⟨8, some 4000⟩), (4000, ⟨8, none⟩)], some 3000, 2000, 2000, fun _ => 0⟩

/-- Witness for C3 (amended) at `H3p`: releasing 1000 and 1116 in either
order merges them into one free block of `100 + 50 + headerWidth` bytes. -/
theorem release_adjacent_pair_coalesced_amended_witness :
    pairMerged H3p (tufree (tufree H3p (some (1000 + headerWidth))) (some (1116 + headerWidth)))
      1000 100 50 3000 2 [3000, 4000] ∧
    pairMerged H3p (tufree (tufree H3p (some (1116 + headerWidth))) (some (1000 + headerWidth)))
      1000 100 50 3000 2 [3000, 4000] :=
  release_adjacent_pair_coalesced_amended H3p 1000 1116 100 50 3000 4000 2 [3000, 4000]
    (by decide) (by decide) (by decide) (by decide) (by decide) (by decide) (by decide)
    (by decide) (by decide) (by decide) (by decide) (by decide) (by decide)

end Alloc
